import Mathlib

/-!
Verification development for the intercepting-proxy capture pipeline:
a shallow embedding of the proxy server (`src/proxy/server.ts`), the SSE
streaming reconstructor (`src/proxy/streaming.ts`), the JSONL capture log
(`src/storage/jsonl.ts`) and the message-parsing helpers
(`src/parser/messages.ts`), together with theorems about them.
-/

namespace ClaudeCodeReverse

/-! Values produced by JavaScript `JSON.parse`.  Numbers are modelled as
integers (no claim under scrutiny depends on fractional values). -/

inductive Json where
  | null
  | bool (b : Bool)
  | num (n : Int)
  | str (s : String)
  | arr (elems : List Json)
  | obj (fields : List (String × Json))

/-- JavaScript truthiness of a value (`undefined` is handled at the
`Option Json` level by the callers). -/
def Json.truthy : Json → Bool
  | .null => false
  | .bool b => b
  | .num n => n ≠ 0
  | .str s => s ≠ ""
  | .arr _ => true
  | .obj _ => true

/-- Property access `o[k]` on a parsed JSON object; `none` models
`undefined` (absent key or non-object receiver). -/
def Json.lookup (v : Json) (k : String) : Option Json :=
  match v with
  | .obj fields => (fields.find? (fun p => p.1 = k)).map (fun p => p.2)
  | _ => none

/-- The JavaScript idiom `v || d` on a possibly-undefined value: the value
itself when present and truthy, otherwise the default. -/
def jsOr (v : Option Json) (d : Json) : Json :=
  match v with
  | some x => if x.truthy then x else d
  | none => d

/-- The JavaScript idiom `s || d` on strings: `s` unless it is empty. -/
def jsStrOr (s d : String) : String :=
  if s = "" then d else s

/-! Data model, from `src/types.ts`. -/

structure TokenUsage where
  input_tokens : Int
  output_tokens : Int
  cache_creation_input_tokens : Option Int
  cache_read_input_tokens : Option Int

structure ToolResultSubBlock where
  type : String
  text : Option String

/-- `ContentBlock` from `src/types.ts`: tagged variant over text, tool_use,
tool_result and image blocks.  `tool_use.input` is a parsed JSON value
(`Record<string, unknown>` in the source). -/
inductive ContentBlock where
  | text (text : String)
  | toolUse (id : String) (name : String) (input : Json)
  | toolResult (tool_use_id : String) (content : String ⊕ List ToolResultSubBlock)
      (is_error : Option Bool)
  | image (media_type : String) (data : String)

inductive Role where
  | user
  | assistant
deriving DecidableEq

structure Message where
  role : Role
  content : String ⊕ List ContentBlock

structure SystemPrompt where
  text : String
  cache_control : Option Unit

structure ToolDefinition where
  name : String
  description : String
  input_schema : Json

structure CapturedRequest where
  id : String
  timestamp : String
  model : String
  max_tokens : Int
  system : Option (List SystemPrompt)
  messages : List Message
  tools : Option (List ToolDefinition)
  stream : Option Bool
  metadata : Option Json

structure CapturedResponse where
  request_id : String
  timestamp : String
  content : List ContentBlock
  stop_reason : Option String
  usage : TokenUsage
  model : String
  duration_ms : Int

/-! Streaming reconstructor, from `src/proxy/streaming.ts`. -/

structure StreamAccumulator where
  messageId : String
  model : String
  content : List ContentBlock
  currentBlockIndex : Int
  currentBlock : Option ContentBlock
  currentText : String
  currentJson : String
  stopReason : Option String
  usage : TokenUsage

/-- `createStreamAccumulator` (`streaming.ts` lines 24-39). -/
def createStreamAccumulator : StreamAccumulator :=
  { messageId := ""
    model := ""
    content := []
    currentBlockIndex := -1
    currentBlock := none
    currentText := ""
    currentJson := ""
    stopReason := none
    usage := { input_tokens := 0, output_tokens := 0
               cache_creation_input_tokens := none
               cache_read_input_tokens := none } }

/-- The `message` payload of a `message_start` event: the fields the
reconstructor reads (`id`, `model`, `usage`); the remaining fields of
`MessageStartEvent.message` are the constants `type:'message'`,
`role:'assistant'`, `content:[]`, `stop_reason:null`, `stop_sequence:null`. -/
structure MessageStartInfo where
  id : String
  model : String
  usage : TokenUsage

/-- The `delta` payload of a `content_block_delta` event
(`ContentBlockDeltaEvent` in `src/types.ts`): a runtime-tagged record with
optional `text` and `partial_json` fields. -/
structure BlockDelta where
  type : String
  text : Option String
  partial_json : Option String

/-- `StreamEvent` from `src/types.ts`.  `message_delta` carries
`delta.stop_reason`, `delta.stop_sequence` and an (at runtime possibly
absent) `usage.output_tokens`. -/
inductive StreamEvent where
  | messageStart (message : MessageStartInfo)
  | contentBlockStart (index : Int) (content_block : ContentBlock)
  | contentBlockDelta (index : Int) (delta : BlockDelta)
  | contentBlockStop (index : Int)
  | messageDelta (stop_reason : String) (stop_sequence : Option String)
      (usage_output_tokens : Option Int)
  | messageStop

/-- JavaScript truthiness of a possibly-undefined string field
(`event.delta.text`, `event.delta.partial_json`). -/
def truthyStr : Option String → Bool
  | some s => s ≠ ""
  | none => false

/-- `processStreamEvent` (`streaming.ts` lines 59-129).  `jsonParse` models
the JavaScript built-in `JSON.parse` applied to the accumulated
`input_json_delta` fragments; `none` models a thrown parse error. -/
def processStreamEvent (jsonParse : String → Option Json)
    (a : StreamAccumulator) : StreamEvent → StreamAccumulator
  | .messageStart m =>
      { a with messageId := m.id, model := m.model, usage := m.usage }
  | .contentBlockStart index cb =>
      let a' := { a with currentBlockIndex := index, currentBlock := some cb
                         currentText := "", currentJson := "" }
      match cb with
      | .text t => { a' with currentText := jsStrOr t "" }
      | _ => a'
  | .contentBlockDelta _ delta =>
      if delta.type = "text_delta" ∧ truthyStr delta.text then
        { a with currentText := a.currentText ++ delta.text.getD "" }
      else if delta.type = "input_json_delta" ∧ truthyStr delta.partial_json then
        { a with currentJson := a.currentJson ++ delta.partial_json.getD "" }
      else a
  | .contentBlockStop _ =>
      let a' :=
        match a.currentBlock with
        | some (.text _) =>
            { a with content := a.content ++ [ContentBlock.text a.currentText] }
        | some (.toolUse id name _) =>
            let parsedInput : Json :=
              if a.currentJson ≠ "" then (jsonParse a.currentJson).getD (Json.obj [])
              else Json.obj []
            { a with content :=
                a.content ++ [ContentBlock.toolUse (jsStrOr id "") (jsStrOr name "") parsedInput] }
        | _ => a
      { a' with currentBlock := none }
  | .messageDelta stop_reason _ usage_output_tokens =>
      let a' := { a with stopReason := some stop_reason }
      match usage_output_tokens with
      | some out => { a' with usage := { a'.usage with output_tokens := out } }
      | none => a'
  | .messageStop => a

/-! Character-level models of the JavaScript string operations used by
`SSEParser.processChunk` (`split('\n')`, `trim()`, `startsWith`, `slice`).
The byte stream handled by the parser is modelled as `List Char`. -/

/-- Whitespace as removed by JavaScript `String.prototype.trim` (the
ASCII part, which is all the SSE protocol produces). -/
def isJsWhitespace (c : Char) : Bool :=
  c = ' ' ∨ c = '\t' ∨ c = '\n' ∨ c = '\r' ∨ c = '\x0b' ∨ c = '\x0c'

/-- Removal of trailing whitespace (the second half of `trim()`). -/
def dropTrailingWs (l : List Char) : List Char :=
  (l.reverse.dropWhile isJsWhitespace).reverse

/-- `line.trim()`. -/
def trimChars (l : List Char) : List Char :=
  dropTrailingWs (l.dropWhile isJsWhitespace)

/-- `s.split('\n')`: always returns at least one (possibly empty) segment,
and the segments contain no `'\n'`. -/
def splitNL : List Char → List (List Char)
  | [] => [[]]
  | c :: cs =>
      if c = '\n' then [] :: splitNL cs
      else
        match splitNL cs with
        | [] => [[c]]
        | l :: ls => (c :: l) :: ls

/-- The result of `parseSSELine` (`streaming.ts` lines 41-57): an
`SSEEvent` whose `event` field is `'done'` or `'message'`. -/
inductive SSEEvent where
  | done
  | message (data : List Char)

/-- `parseSSELine` (`streaming.ts` lines 41-57): a line must carry the
`data: ` prefix; payload `[DONE]` is the terminator event. -/
def parseSSELine (line : List Char) : Option SSEEvent :=
  if "data: ".data.isPrefixOf line then
    let data := line.drop 6
    if data = "[DONE]".data then some SSEEvent.done
    else some (SSEEvent.message data)
  else none

section Parser

variable (parseEventJson : List Char → Option StreamEvent)
variable (jsonParse : String → Option Json)

/-- The body of the per-line loop in `SSEParser.processChunk`
(`streaming.ts` lines 147-163): trim, skip blank and comment lines, parse
the SSE framing, JSON-parse the payload (modelled by `parseEventJson`) and
feed the event to `processStreamEvent`.  Returns the new accumulator and
the event pushed to the result list, if any. -/
def processSSELine (a : StreamAccumulator) (line : List Char) :
    StreamAccumulator × Option StreamEvent :=
  let trimmed := trimChars line
  if trimmed = [] ∨ trimmed.head? = some ':' then (a, none)
  else
    match parseSSELine trimmed with
    | some (SSEEvent.message data) =>
        if data ≠ [] then
          match parseEventJson data with
          | some ev => (processStreamEvent jsonParse a ev, some ev)
          | none => (a, none)
        else (a, none)
    | _ => (a, none)

/-- The private state of an `SSEParser` instance: the pending-line buffer
and the accumulator. -/
structure SSEParserState where
  buffer : List Char
  accumulator : StreamAccumulator

/-- A freshly constructed `SSEParser` (`streaming.ts` lines 131-137). -/
def initialSSEParserState : SSEParserState :=
  { buffer := [], accumulator := createStreamAccumulator }

/-- `SSEParser.processChunk` (`streaming.ts` lines 139-166): append the
chunk to the buffer, split on newlines, keep the last (incomplete) segment
as the new buffer (`lines.pop() || ''`), and run every complete line
through the per-line loop, collecting the parsed events. -/
def processChunk (st : SSEParserState) (chunk : List Char) :
    SSEParserState × List StreamEvent :=
  let buf := st.buffer ++ chunk
  let lines := splitNL buf
  let buffer' := (splitNL buf).getLastD []
  let complete := lines.dropLast
  let folded := complete.foldl
    (fun (p : StreamAccumulator × List StreamEvent) line =>
      let r := processSSELine parseEventJson jsonParse p.1 line
      (r.1, p.2 ++ r.2.toList))
    (st.accumulator, [])
  ({ buffer := buffer', accumulator := folded.1 }, folded.2)

/-- State evolution of `processChunk`, discarding the returned events. -/
def feedChunk (st : SSEParserState) (chunk : List Char) : SSEParserState :=
  (processChunk parseEventJson jsonParse st chunk).1

/-- Feeding a sequence of chunks one by one. -/
def feedChunks (st : SSEParserState) (chunks : List (List Char)) : SSEParserState :=
  chunks.foldl (feedChunk parseEventJson jsonParse) st

/-- Feeding a sequence of chunks one by one, collecting all events
returned across the calls. -/
def feedChunksEv (st : SSEParserState) (chunks : List (List Char)) :
    SSEParserState × List StreamEvent :=
  chunks.foldl
    (fun p c =>
      let r := processChunk parseEventJson jsonParse p.1 c
      (r.1, p.2 ++ r.2))
    (st, [])

end Parser

/-! Capture log, from `src/storage/jsonl.ts`.  The backing file is
modelled as `Option (List Char)` (`none` models a file that does not
exist); the JavaScript built-ins `JSON.stringify` and `JSON.parse` on a
`LogEntry` are modelled by explicit serialisation and parsing parameters. -/

/-- `LogEntry` from `src/storage/jsonl.ts`: the `type` discriminator and
the cast of `data` are captured by the sum. -/
inductive LogData where
  | request (r : CapturedRequest)
  | response (p : CapturedResponse)

structure LogEntry where
  timestamp : String
  data : LogData

/-- `JSONLStorage.writeLine` (`jsonl.ts` lines 53-56): append the
serialised entry plus `'\n'`; opening the write stream in append mode
creates the file when absent. -/
def writeLine (serialize : LogEntry → List Char) (file : Option (List Char))
    (e : LogEntry) : Option (List Char) :=
  some (file.getD [] ++ serialize e ++ ['\n'])

/-- A sequence of `logRequest`/`logResponse` calls. -/
def appendEntries (serialize : LogEntry → List Char) (file : Option (List Char))
    (es : List LogEntry) : Option (List Char) :=
  es.foldl (writeLine serialize) file

/-- `JSONLStorage.readAll` (`jsonl.ts` lines 58-73): return `[]` when the
file does not exist, otherwise trim the content, split on newlines, drop
empty lines (`filter(Boolean)`), JSON-parse each line and drop lines that
fail to parse. -/
def readAll (parseLine : List Char → Option LogEntry) (file : Option (List Char)) :
    List LogEntry :=
  match file with
  | none => []
  | some content =>
      (((splitNL (trimChars content)).filter (fun l => l ≠ [])).filterMap parseLine)

/-- One `responseMap.set(response.request_id, response)` step
(`jsonl.ts` lines 92-97).  A JavaScript `Map` is modelled as an
association list consulted front-first, so consing models overwriting:
`get` sees the most recent `set` for a key. -/
def insertResponse (m : List (String × CapturedResponse)) (p : CapturedResponse) :
    List (String × CapturedResponse) :=
  (p.request_id, p) :: m

/-- `responseMap.get(k)`. -/
def responseMapGet (m : List (String × CapturedResponse)) (k : String) :
    Option CapturedResponse :=
  (m.find? (fun q => q.1 = k)).map (fun q => q.2)

/-- `JSONLStorage.getRequestResponsePairs` (`jsonl.ts` lines 87-109):
index responses by `request_id`, then pair every request entry, in log
order, with `responseMap.get(request.id) || null`. -/
def getRequestResponsePairs (entries : List LogEntry) :
    List (CapturedRequest × Option CapturedResponse) :=
  let responseMap := entries.foldl
    (fun m e =>
      match e.data with
      | LogData.response p => insertResponse m p
      | _ => m) []
  (entries.filterMap (fun e =>
      match e.data with
      | LogData.request r => some r
      | _ => none)).map
    (fun r => (r, responseMapGet responseMap r.id))

/-- The request records of a log, in log order. -/
def requestsOf (entries : List LogEntry) : List CapturedRequest :=
  entries.filterMap (fun e =>
    match e.data with
    | LogData.request r => some r
    | _ => none)

/-- The response records of a log, in log order. -/
def responsesOf (entries : List LogEntry) : List CapturedResponse :=
  entries.filterMap (fun e =>
    match e.data with
    | LogData.response p => some p
    | _ => none)

/-- The last response in log order whose `request_id` is `i`, if any. -/
def lastResponseFor (entries : List LogEntry) (i : String) : Option CapturedResponse :=
  ((responsesOf entries).filter (fun p => p.request_id = i)).getLast?

/-- Whether a log entry is a request entry whose `data.id` is `i`. -/
def isRequestWithId (e : LogEntry) (i : String) : Bool :=
  match e.data with
  | LogData.request r => r.id = i
  | _ => false

/-! Proxy server, from `src/proxy/server.ts`.  The handlers are modelled
as functions from their inputs to the list of observable actions they
perform, in order. -/

/-- The `CapturedRequest` value built by `handleProxyRequest`
(`server.ts` lines 81-91).  The source reads each field off the parsed
body with an unchecked cast, so the fields are modelled as the JSON
values actually stored. -/
structure CapturedRequestJs where
  id : String
  timestamp : String
  model : Json
  max_tokens : Json
  system : Option Json
  messages : Json
  tools : Option Json
  stream : Option Json
  metadata : Option Json

/-- `handleProxyRequest`'s capture-record construction (`server.ts` lines
81-91): `model`, `max_tokens` and `messages` use the `|| default` idiom;
the remaining fields are plain property reads (possibly `undefined`). -/
def buildCapturedRequest (requestId timestamp : String) (body : Json) :
    CapturedRequestJs :=
  { id := requestId
    timestamp := timestamp
    model := jsOr (body.lookup "model") (Json.str "unknown")
    max_tokens := jsOr (body.lookup "max_tokens") (Json.num 0)
    system := body.lookup "system"
    messages := jsOr (body.lookup "messages") (Json.arr [])
    tools := body.lookup "tools"
    stream := body.lookup "stream"
    metadata := body.lookup "metadata" }

/-- Observable actions of the request path of `handleProxyRequest`. -/
inductive ProxyAction where
  | logRequest (r : CapturedRequestJs)
  | broadcastRequest (r : CapturedRequestJs)
  | openUpstream (hostname : String) (port : Nat) (path : String) (method : String)
  | writeUpstreamBody (body : List Char)

/-- The request path of `handleProxyRequest` (`server.ts` lines 66-144):
parse the raw body best-effort (an empty body or a parse failure leaves
`body = {}` and does not fail the request), build and persist and
broadcast the capture record, then open the upstream connection to
`api.anthropic.com:443` and forward the raw body bytes.  `bodyParse`
models `JSON.parse`; `none` models a thrown parse error. -/
def handleProxyRequestActions (bodyParse : List Char → Option Json)
    (requestId timestamp method path : String) (rawBody : List Char) :
    List ProxyAction :=
  let body : Json :=
    if rawBody ≠ [] then (bodyParse rawBody).getD (Json.obj []) else Json.obj []
  let capturedRequest := buildCapturedRequest requestId timestamp body
  [ProxyAction.logRequest capturedRequest,
   ProxyAction.broadcastRequest capturedRequest,
   ProxyAction.openUpstream "api.anthropic.com" 443 path method] ++
  (if rawBody ≠ [] then [ProxyAction.writeUpstreamBody rawBody] else [])

/-- The `CapturedResponse` built at stream end by
`handleStreamingResponse` (`server.ts` lines 168-176). -/
def buildStreamedResponse (request_id timestamp : String) (duration_ms : Int)
    (a : StreamAccumulator) : CapturedResponse :=
  { request_id := request_id
    timestamp := timestamp
    content := a.content
    stop_reason := a.stopReason
    usage := a.usage
    model := a.model
    duration_ms := duration_ms }

/-- How the upstream response stream terminates: a clean `'end'` event or
an `'error'` event. -/
inductive StreamTermination where
  | upstreamEnd
  | upstreamError

/-- Observable actions of `handleStreamingResponse`. -/
inductive ResponseAction where
  | clientWrite (chunk : List Char)
  | clientEnd
  | logResponse (p : CapturedResponse)
  | broadcastResponse (p : CapturedResponse)

/-- `handleStreamingResponse` (`server.ts` lines 146-187): every upstream
chunk is written to the client and fed to the `SSEParser`; on `'end'` the
client stream is closed and the finalised record is persisted and
broadcast; on `'error'` the handler only logs operationally and calls
`res.end()`. -/
def handleStreamingResponseActions (parseEventJson : List Char → Option StreamEvent)
    (jsonParse : String → Option Json) (requestId timestamp : String)
    (duration_ms : Int) (chunks : List (List Char)) (term : StreamTermination) :
    List ResponseAction :=
  let writes := chunks.map ResponseAction.clientWrite
  match term with
  | StreamTermination.upstreamEnd =>
      let finalState := feedChunks parseEventJson jsonParse initialSSEParserState chunks
      let capturedResponse :=
        buildStreamedResponse requestId timestamp duration_ms finalState.accumulator
      writes ++ [ResponseAction.clientEnd,
                 ResponseAction.logResponse capturedResponse,
                 ResponseAction.broadcastResponse capturedResponse]
  | StreamTermination.upstreamError =>
      writes ++ [ResponseAction.clientEnd]

/-- Whether an action persists a `CapturedResponse` record. -/
def isLogResponse : ResponseAction → Bool
  | ResponseAction.logResponse _ => true
  | _ => false

/-! The capture log as evolved by concurrent request handlers.  Each
handler persists its request record (with a freshly generated UUID-v4 id)
before opening the upstream connection, and persists at most one response
record, tagged with the same id, strictly afterwards. -/

structure ProxyLogState where
  log : List LogEntry
  pending : List String
  used : List String

/-- Reachable states of the capture log under interleaved handlers:
`startRequest` persists a request record whose freshly generated id is
unlike any id generated before (the UUID-v4 assumption), and makes the id
pending; `finishResponse` persists the single response record of a
pending request (the `'end'` handler of either response branch fires at
most once) and retires the id. -/
inductive ReachableLog : ProxyLogState → Prop where
  | init : ReachableLog { log := [], pending := [], used := [] }
  | startRequest {s : ProxyLogState} (r : CapturedRequest) (ts : String) :
      ReachableLog s → r.id ∉ s.used →
      ReachableLog { log := s.log ++ [{ timestamp := ts, data := LogData.request r }]
                     pending := s.pending ++ [r.id]
                     used := s.used ++ [r.id] }
  | finishResponse {s : ProxyLogState} (p : CapturedResponse) (ts : String) :
      ReachableLog s → p.request_id ∈ s.pending →
      ReachableLog { log := s.log ++ [{ timestamp := ts, data := LogData.response p }]
                     pending := s.pending.erase p.request_id
                     used := s.used }

/-! System-prompt extraction, from `src/parser/messages.ts`. -/

/-- A system block as seen at runtime by `extractSystemPrompt`: a `type`
discriminator and a text payload. -/
structure RuntimeSystemBlock where
  type : String
  text : String

/-- `extractSystemPrompt` (`messages.ts` lines 27-40).  The argument is
`request.system` as found at runtime: absent, a plain string, or an array
of blocks.  The source first returns `''` for any falsy value (which for
a string means the empty string), returns a string verbatim, and
otherwise filters the `type === 'text'` blocks and joins their `text`
fields with `'\n\n'`. -/
def extractSystemPrompt : Option (String ⊕ List RuntimeSystemBlock) → String
  | none => ""
  | some (Sum.inl s) => if s = "" then "" else s
  | some (Sum.inr blocks) =>
      String.intercalate "\n\n"
        ((blocks.filter (fun b => b.type = "text")).map (fun b => b.text))

/-! Projections of the parser used in proofs. -/

/-- The accumulator evolution of one line of `processChunk`'s loop. -/
def accLine (parseEventJson : List Char → Option StreamEvent)
    (jsonParse : String → Option Json) (a : StreamAccumulator) (line : List Char) :
    StreamAccumulator :=
  (processSSELine parseEventJson jsonParse a line).1

/-- The events produced by a list of complete lines, threading the
accumulator. -/
def lineEvents (parseEventJson : List Char → Option StreamEvent)
    (jsonParse : String → Option Json) :
    StreamAccumulator → List (List Char) → List StreamEvent
  | _, [] => []
  | a, l :: ls =>
      (processSSELine parseEventJson jsonParse a l).2.toList ++
        lineEvents parseEventJson jsonParse
          (processSSELine parseEventJson jsonParse a l).1 ls

/-- The events produced by a list of chunks, threading the parser state. -/
def chunksEvents (parseEventJson : List Char → Option StreamEvent)
    (jsonParse : String → Option Json) :
    SSEParserState → List (List Char) → List StreamEvent
  | _, [] => []
  | st, c :: cs =>
      (processChunk parseEventJson jsonParse st c).2 ++
        chunksEvents parseEventJson jsonParse
          (processChunk parseEventJson jsonParse st c).1 cs

/-! Theorems.  First, facts about `splitNL` (the model of
`buffer.split('\n')` together with `lines.pop()`). -/

theorem splitNL_ne_nil (l : List Char) : splitNL l ≠ [] := by
  induction l with
  | nil => simp [splitNL]
  | cons c cs ih =>
      simp only [splitNL]
      split
      · simp
      · split
        · simp
        · simp

theorem splitNL_no_newline : ∀ {l : List Char}, '\n' ∉ l → splitNL l = [l] := by
  intro l h
  induction l with
  | nil => rfl
  | cons c cs ih =>
      simp only [List.mem_cons, not_or] at h
      have hc : ¬ c = '\n' := fun hc => h.1 hc.symm
      simp only [splitNL, if_neg hc, ih h.2]

theorem getLastD_cons_cons {α : Type} (a b d : α) (l : List α) :
    (a :: b :: l).getLastD d = (b :: l).getLastD d := by
  induction l generalizing a b with
  | nil => rfl
  | cons x xs ih => exact ih b x

theorem getLastD_one {α : Type} (a d : α) : ([a] : List α).getLastD d = a := rfl

theorem newline_not_mem_lastSeg (l : List Char) :
    '\n' ∉ (splitNL l).getLastD [] := by
  induction l with
  | nil => simp [splitNL, List.getLastD]
  | cons c cs ih =>
      cases hsp : splitNL cs with
      | nil => exact absurd hsp (splitNL_ne_nil cs)
      | cons m ms =>
          rw [hsp] at ih
          by_cases hc : c = '\n'
          · subst hc
            simp only [splitNL, if_pos rfl, if_true, eq_self_iff_true, hsp]
            rw [getLastD_cons_cons]
            exact ih
          · simp only [splitNL, if_neg hc, hsp]
            cases ms with
            | nil =>
                rw [getLastD_one]
                rw [getLastD_one] at ih
                intro hmem
                rcases List.mem_cons.mp hmem with h1 | h2
                · exact hc h1.symm
                · exact ih h2
            | cons m2 ms2 =>
                rw [getLastD_cons_cons]
                rw [getLastD_cons_cons] at ih
                exact ih

theorem splitNL_append (x y : List Char) :
    splitNL (x ++ y) =
      (splitNL x).dropLast ++
        ((splitNL x).getLastD [] ++ (splitNL y).headD []) :: (splitNL y).tail := by
  cases hspy : splitNL y with
  | nil => exact absurd hspy (splitNL_ne_nil y)
  | cons yh yt =>
  induction x with
  | nil =>
      simp [splitNL, List.getLastD, hspy]
  | cons c cs ih =>
      cases hsp : splitNL cs with
      | nil => exact absurd hsp (splitNL_ne_nil cs)
      | cons m ms =>
          rw [hsp] at ih
          simp only [List.headD_cons, List.tail_cons] at ih ⊢
          by_cases hc : c = '\n'
          · subst hc
            have e2 : splitNL ('\n' :: (cs ++ y)) = [] :: splitNL (cs ++ y) := by
              simp [splitNL]
            have e1 : splitNL ('\n' :: cs) = [] :: m :: ms := by
              simp [splitNL, hsp]
            rw [List.cons_append, e2, ih, e1]
            rw [List.dropLast_cons_of_ne_nil (by simp : (m :: ms : List (List Char)) ≠ [])]
            rw [getLastD_cons_cons]
            simp
          · cases ms with
            | nil =>
                rw [getLastD_one] at ih
                simp only [List.dropLast_single, List.nil_append] at ih
                have e2 : splitNL (c :: (cs ++ y)) = (c :: (m ++ yh)) :: yt := by
                  simp only [splitNL, if_neg hc, ih]
                have e1 : splitNL (c :: cs) = [c :: m] := by
                  simp only [splitNL, if_neg hc, hsp]
                rw [List.cons_append, e2, e1, getLastD_one]
                simp [List.dropLast_single]
            | cons m2 ms2 =>
                rw [getLastD_cons_cons] at ih
                rw [List.dropLast_cons_of_ne_nil
                  (by simp : (m2 :: ms2 : List (List Char)) ≠ [])] at ih
                have e2 : splitNL (c :: (cs ++ y)) =
                    (c :: m) :: ((m2 :: ms2).dropLast ++
                      ((m2 :: ms2).getLastD [] ++ yh) :: yt) := by
                  simp only [splitNL, if_neg hc, ih, List.cons_append]
                have e1 : splitNL (c :: cs) = (c :: m) :: m2 :: ms2 := by
                  simp only [splitNL, if_neg hc, hsp]
                rw [List.cons_append, e2, e1]
                rw [List.dropLast_cons_of_ne_nil
                  (by simp : (m2 :: ms2 : List (List Char)) ≠ [])]
                rw [getLastD_cons_cons]
                simp

theorem getLastD_irrel {α : Type} (a : α) (l : List α) (d d' : α) :
    (a :: l).getLastD d = (a :: l).getLastD d' := by
  induction l generalizing a with
  | nil => rfl
  | cons b bs ih =>
      rw [getLastD_cons_cons, getLastD_cons_cons]
      exact ih b

theorem getLastD_append_cons {α : Type} (l : List α) (a : α) (m : List α) (d : α) :
    (l ++ a :: m).getLastD d = (a :: m).getLastD d := by
  induction l generalizing d with
  | nil => rfl
  | cons x xs ih =>
      rw [List.cons_append, List.getLastD_cons]
      rw [ih x]
      exact getLastD_irrel a m x d

theorem pairFoldEq (pe : List Char → Option StreamEvent) (jp : String → Option Json) :
    ∀ (lines : List (List Char)) (a : StreamAccumulator) (evs : List StreamEvent),
      lines.foldl
        (fun (p : StreamAccumulator × List StreamEvent) line =>
          let r := processSSELine pe jp p.1 line
          (r.1, p.2 ++ r.2.toList)) (a, evs)
        = (lines.foldl (accLine pe jp) a, evs ++ lineEvents pe jp a lines) := by
  intro lines
  induction lines with
  | nil =>
      intro a evs
      simp [lineEvents]
  | cons l ls ih =>
      intro a evs
      simp only [List.foldl_cons, lineEvents]
      rw [ih]
      simp [accLine, List.append_assoc]

theorem processChunk_eq (pe : List Char → Option StreamEvent) (jp : String → Option Json)
    (st : SSEParserState) (c : List Char) :
    processChunk pe jp st c =
      ({ buffer := (splitNL (st.buffer ++ c)).getLastD []
         accumulator :=
           (splitNL (st.buffer ++ c)).dropLast.foldl (accLine pe jp) st.accumulator },
       lineEvents pe jp st.accumulator (splitNL (st.buffer ++ c)).dropLast) := by
  simp only [processChunk]
  rw [pairFoldEq]
  simp

theorem feedChunk_eq (pe : List Char → Option StreamEvent) (jp : String → Option Json)
    (st : SSEParserState) (c : List Char) :
    feedChunk pe jp st c =
      { buffer := (splitNL (st.buffer ++ c)).getLastD []
        accumulator :=
          (splitNL (st.buffer ++ c)).dropLast.foldl (accLine pe jp) st.accumulator } := by
  simp [feedChunk, processChunk_eq]

theorem feedChunk_feedChunk (pe : List Char → Option StreamEvent)
    (jp : String → Option Json) (st : SSEParserState) (c1 c2 : List Char) :
    feedChunk pe jp (feedChunk pe jp st c1) c2 = feedChunk pe jp st (c1 ++ c2) := by
  rw [feedChunk_eq, feedChunk_eq, feedChunk_eq]
  have hnl : '\n' ∉ (splitNL (st.buffer ++ c1)).getLastD [] :=
    newline_not_mem_lastSeg (st.buffer ++ c1)
  cases hspc2 : splitNL c2 with
  | nil => exact absurd hspc2 (splitNL_ne_nil c2)
  | cons yh yt =>
      have h1 : splitNL ((splitNL (st.buffer ++ c1)).getLastD [] ++ c2)
          = ((splitNL (st.buffer ++ c1)).getLastD [] ++ yh) :: yt := by
        rw [splitNL_append, splitNL_no_newline hnl, hspc2]
        simp [getLastD_one]
      have h2 : splitNL (st.buffer ++ (c1 ++ c2))
          = (splitNL (st.buffer ++ c1)).dropLast ++
            (((splitNL (st.buffer ++ c1)).getLastD [] ++ yh) :: yt) := by
        rw [← List.append_assoc, splitNL_append, hspc2]
        simp
      simp only [h1, h2]
      congr 1
      · rw [getLastD_append_cons]
      · rw [List.dropLast_append_of_ne_nil _
          (by simp : (((splitNL (st.buffer ++ c1)).getLastD [] ++ yh) :: yt) ≠ [])]
        rw [List.foldl_append]

theorem feedChunks_feedChunk (pe : List Char → Option StreamEvent)
    (jp : String → Option Json) :
    ∀ (cs : List (List Char)) (st : SSEParserState) (c0 : List Char),
      feedChunks pe jp (feedChunk pe jp st c0) cs =
        feedChunk pe jp st (c0 ++ cs.flatten) := by
  intro cs
  induction cs with
  | nil =>
      intro st c0
      simp [feedChunks]
  | cons c cs ih =>
      intro st c0
      show feedChunks pe jp (feedChunk pe jp (feedChunk pe jp st c0) c) cs = _
      rw [ih, feedChunk_feedChunk]
      simp [List.append_assoc]

/-- C2: feeding a byte string to `SSEParser.processChunk` in any chunking
leaves the parser's accumulator (hence the finalised `CaptureResponse`
built from it) equal to the accumulator obtained from feeding the
concatenation as a single chunk. -/
theorem c2_chunking_invariance (pe : List Char → Option StreamEvent)
    (jp : String → Option Json) (chunks : List (List Char)) :
    (feedChunks pe jp initialSSEParserState chunks).accumulator =
      (feedChunk pe jp initialSSEParserState chunks.flatten).accumulator := by
  cases chunks with
  | nil =>
      show initialSSEParserState.accumulator = _
      rw [feedChunk_eq]
      simp [initialSSEParserState, splitNL, List.getLastD]
  | cons c cs =>
      show (feedChunks pe jp (feedChunk pe jp initialSSEParserState c) cs).accumulator = _
      rw [feedChunks_feedChunk]
      rfl

theorem processSSELine_fst (pe : List Char → Option StreamEvent)
    (jp : String → Option Json) (a : StreamAccumulator) (l : List Char) :
    (processSSELine pe jp a l).1 =
      match (processSSELine pe jp a l).2 with
      | some ev => processStreamEvent jp a ev
      | none => a := by
  simp only [processSSELine]
  split
  · rfl
  · split
    · split
      · split <;> rfl
      · rfl
    · rfl

theorem foldl_accLine_eq (pe : List Char → Option StreamEvent)
    (jp : String → Option Json) :
    ∀ (lines : List (List Char)) (a : StreamAccumulator),
      lines.foldl (accLine pe jp) a =
        (lineEvents pe jp a lines).foldl (processStreamEvent jp) a := by
  intro lines
  induction lines with
  | nil => intro a; rfl
  | cons l ls ih =>
      intro a
      simp only [List.foldl_cons, lineEvents, List.foldl_append]
      have hfst := processSSELine_fst pe jp a l
      cases hsnd : (processSSELine pe jp a l).2 with
      | none =>
          rw [hsnd] at hfst
          have h1 : (processSSELine pe jp a l).1 = a := hfst
          simp only [hsnd, Option.toList, List.foldl_nil]
          rw [h1, show accLine pe jp a l = a from h1]
          exact ih a
      | some ev =>
          rw [hsnd] at hfst
          have h1 : (processSSELine pe jp a l).1 = processStreamEvent jp a ev := hfst
          simp only [hsnd, Option.toList, List.foldl_cons, List.foldl_nil]
          rw [h1, show accLine pe jp a l = processStreamEvent jp a ev from h1]
          exact ih (processStreamEvent jp a ev)

theorem processChunk_acc_events (pe : List Char → Option StreamEvent)
    (jp : String → Option Json) (st : SSEParserState) (c : List Char) :
    (processChunk pe jp st c).1.accumulator =
      ((processChunk pe jp st c).2).foldl (processStreamEvent jp) st.accumulator := by
  rw [processChunk_eq]
  exact foldl_accLine_eq pe jp _ _

theorem feedChunks_acc_events (pe : List Char → Option StreamEvent)
    (jp : String → Option Json) :
    ∀ (cs : List (List Char)) (st : SSEParserState),
      (feedChunks pe jp st cs).accumulator =
        (chunksEvents pe jp st cs).foldl (processStreamEvent jp) st.accumulator := by
  intro cs
  induction cs with
  | nil => intro st; rfl
  | cons c cs ih =>
      intro st
      show (feedChunks pe jp (feedChunk pe jp st c) cs).accumulator = _
      rw [ih]
      simp only [chunksEvents, List.foldl_append]
      rw [show feedChunk pe jp st c = (processChunk pe jp st c).1 from rfl]
      rw [processChunk_acc_events]

theorem feedChunksEv_pair (pe : List Char → Option StreamEvent)
    (jp : String → Option Json) :
    ∀ (cs : List (List Char)) (st : SSEParserState) (evs0 : List StreamEvent),
      cs.foldl
        (fun p c =>
          let r := processChunk pe jp p.1 c
          (r.1, p.2 ++ r.2)) (st, evs0)
        = (feedChunks pe jp st cs, evs0 ++ chunksEvents pe jp st cs) := by
  intro cs
  induction cs with
  | nil =>
      intro st evs0
      simp [feedChunks, chunksEvents]
  | cons c cs ih =>
      intro st evs0
      simp only [List.foldl_cons, chunksEvents]
      rw [ih]
      simp only [List.append_assoc]
      rfl

theorem feedChunksEv_eq (pe : List Char → Option StreamEvent)
    (jp : String → Option Json) (st : SSEParserState) (cs : List (List Char)) :
    feedChunksEv pe jp st cs = (feedChunks pe jp st cs, chunksEvents pe jp st cs) := by
  show cs.foldl _ (st, []) = _
  rw [feedChunksEv_pair]
  simp

/-- C8: an SSE stream whose only parsed event is a `message_start`
followed by end of stream finalises to a `CaptureResponse` with empty
`content` and the usage carried by the `message_start` event. -/
theorem c8_message_start_only (pe : List Char → Option StreamEvent)
    (jp : String → Option Json) (chunks : List (List Char)) (m : MessageStartInfo)
    (rid ts : String) (dur : Int)
    (h : (feedChunksEv pe jp initialSSEParserState chunks).2 =
      [StreamEvent.messageStart m]) :
    (buildStreamedResponse rid ts dur
        (feedChunksEv pe jp initialSSEParserState chunks).1.accumulator).content = [] ∧
    (buildStreamedResponse rid ts dur
        (feedChunksEv pe jp initialSSEParserState chunks).1.accumulator).usage = m.usage := by
  have h2 : chunksEvents pe jp initialSSEParserState chunks =
      [StreamEvent.messageStart m] := by
    rw [feedChunksEv_eq] at h
    exact h
  have hacc := feedChunks_acc_events pe jp chunks initialSSEParserState
  rw [h2] at hacc
  simp only [List.foldl_cons, List.foldl_nil] at hacc
  rw [feedChunksEv_eq]
  refine ⟨?_, ?_⟩
  · show (buildStreamedResponse rid ts dur
        (feedChunks pe jp initialSSEParserState chunks).accumulator).content = []
    rw [hacc]
    rfl
  · show (buildStreamedResponse rid ts dur
        (feedChunks pe jp initialSSEParserState chunks).accumulator).usage = m.usage
    rw [hacc]
    rfl

/-- Witness for C8 at a concrete one-chunk stream carrying exactly one
`message_start` event. -/
theorem c8_message_start_only_witness :
    (buildStreamedResponse "r1" "t1" 0
        (feedChunksEv
          (fun d => if d = "e".data then
            some (StreamEvent.messageStart ⟨"m1", "mod", ⟨5, 0, none, none⟩⟩) else none)
          (fun _ => none) initialSSEParserState ["data: e\n".data]).1.accumulator).content
      = [] ∧
    (buildStreamedResponse "r1" "t1" 0
        (feedChunksEv
          (fun d => if d = "e".data then
            some (StreamEvent.messageStart ⟨"m1", "mod", ⟨5, 0, none, none⟩⟩) else none)
          (fun _ => none) initialSSEParserState ["data: e\n".data]).1.accumulator).usage
      = (⟨"m1", "mod", ⟨5, 0, none, none⟩⟩ : MessageStartInfo).usage :=
  c8_message_start_only
    (fun d => if d = "e".data then
      some (StreamEvent.messageStart ⟨"m1", "mod", ⟨5, 0, none, none⟩⟩) else none)
    (fun _ => none) ["data: e\n".data] ⟨"m1", "mod", ⟨5, 0, none, none⟩⟩
    "r1" "t1" 0 (by rfl)

/-- C9: a `content_block_stop` event processed while no block is active
(`currentBlock` is null) leaves the accumulator unchanged. -/
theorem c9_stop_without_active_block (jp : String → Option Json)
    (a : StreamAccumulator) (i : Int) (h : a.currentBlock = none) :
    processStreamEvent jp a (StreamEvent.contentBlockStop i) = a := by
  cases a with
  | mk messageId model content currentBlockIndex currentBlock currentText
      currentJson stopReason usage =>
      simp only at h
      subst h
      rfl

/-- Witness for C9 at the freshly created accumulator. -/
theorem c9_stop_without_active_block_witness :
    processStreamEvent (fun _ => none) createStreamAccumulator
        (StreamEvent.contentBlockStop 0) = createStreamAccumulator :=
  c9_stop_without_active_block (fun _ => none) createStreamAccumulator 0 rfl

theorem jsStrOr_self (s : String) : jsStrOr s "" = s := by
  unfold jsStrOr
  by_cases h : s = ""
  · rw [if_pos h, h]
  · rw [if_neg h]

/-- C4, counterexample to the claim as stated: a `content_block_start`
whose `tool_use` block carries empty `id` and `name` followed by a
`content_block_stop` pushes a `tool_use` block whose `id` and `name` are
the empty string (the source defaults them with `|| ''` instead of
guaranteeing non-emptiness). -/
theorem c4_counterexample :
    (processStreamEvent (fun _ => none)
        (processStreamEvent (fun _ => none) createStreamAccumulator
          (StreamEvent.contentBlockStart 0 (ContentBlock.toolUse "" "" (Json.obj []))))
        (StreamEvent.contentBlockStop 0)).content
      = [ContentBlock.toolUse "" "" (Json.obj [])] := rfl

/-- C4 (amended): a `tool_use` block pushed on `content_block_stop`
carries the `id` and `name` of the block opened by `content_block_start`
(possibly empty), and its `input` is the value obtained by successfully
JSON-parsing the concatenated `input_json_delta` fragments, or `{}` when
the concatenation is empty or malformed. -/
theorem c4_tool_use_input (jp : String → Option Json) (a : StreamAccumulator)
    (i : Int) (id name : String) (inp : Json)
    (h : a.currentBlock = some (ContentBlock.toolUse id name inp)) :
    ∃ input',
      (processStreamEvent jp a (StreamEvent.contentBlockStop i)).content =
        a.content ++ [ContentBlock.toolUse id name input'] ∧
      ((a.currentJson = "" ∨ jp a.currentJson = none) → input' = Json.obj []) ∧
      (∀ v, a.currentJson ≠ "" → jp a.currentJson = some v → input' = v) := by
  refine ⟨if a.currentJson ≠ "" then (jp a.currentJson).getD (Json.obj [])
    else Json.obj [], ?_, ?_, ?_⟩
  · simp only [processStreamEvent, h]
    rw [jsStrOr_self, jsStrOr_self]
  · intro hor
    rcases hor with he | hn
    · rw [if_neg (by simp [he])]
    · by_cases he : a.currentJson = ""
      · rw [if_neg (by simp [he])]
      · rw [if_pos he, hn]
        rfl
  · intro v hne hv
    rw [if_pos hne, hv]
    rfl

/-- Witness for C4 (amended) at a concrete accumulator with an open
`tool_use` block. -/
theorem c4_tool_use_input_witness :
    ∃ input',
      (processStreamEvent (fun _ => some (Json.num 3))
          (processStreamEvent (fun _ => some (Json.num 3)) createStreamAccumulator
            (StreamEvent.contentBlockStart 0
              (ContentBlock.toolUse "tu1" "bash" (Json.obj []))))
          (StreamEvent.contentBlockStop 0)).content =
        (processStreamEvent (fun _ => some (Json.num 3)) createStreamAccumulator
            (StreamEvent.contentBlockStart 0
              (ContentBlock.toolUse "tu1" "bash" (Json.obj [])))).content ++
          [ContentBlock.toolUse "tu1" "bash" input'] ∧
      (((processStreamEvent (fun _ => some (Json.num 3)) createStreamAccumulator
            (StreamEvent.contentBlockStart 0
              (ContentBlock.toolUse "tu1" "bash" (Json.obj [])))).currentJson = "" ∨
          (fun _ => some (Json.num 3))
            ((processStreamEvent (fun _ => some (Json.num 3)) createStreamAccumulator
              (StreamEvent.contentBlockStart 0
                (ContentBlock.toolUse "tu1" "bash" (Json.obj [])))).currentJson) = none) →
        input' = Json.obj []) ∧
      (∀ v, (processStreamEvent (fun _ => some (Json.num 3)) createStreamAccumulator
            (StreamEvent.contentBlockStart 0
              (ContentBlock.toolUse "tu1" "bash" (Json.obj [])))).currentJson ≠ "" →
        (fun _ => some (Json.num 3))
            ((processStreamEvent (fun _ => some (Json.num 3)) createStreamAccumulator
              (StreamEvent.contentBlockStart 0
                (ContentBlock.toolUse "tu1" "bash" (Json.obj [])))).currentJson) = some v →
        input' = v) :=
  c4_tool_use_input (fun _ => some (Json.num 3))
    (processStreamEvent (fun _ => some (Json.num 3)) createStreamAccumulator
      (StreamEvent.contentBlockStart 0
        (ContentBlock.toolUse "tu1" "bash" (Json.obj []))))
    0 "tu1" "bash" (Json.obj []) rfl

/-- C3, counterexample to the claim as stated: when the upstream stream
errors mid-stream, the handler only terminates the client stream; no
`CaptureResponse` record is persisted at all (so none is tagged with
`stop_reason = null`). -/
theorem c3_counterexample :
    handleStreamingResponseActions (fun _ => none) (fun _ => none) "req-1" "t1" 7
        ["data: x\n".data] StreamTermination.upstreamError
      = [ResponseAction.clientWrite "data: x\n".data, ResponseAction.clientEnd] ∧
    (handleStreamingResponseActions (fun _ => none) (fun _ => none) "req-1" "t1" 7
        ["data: x\n".data] StreamTermination.upstreamError).countP isLogResponse = 0 :=
  ⟨rfl, rfl⟩

/-- C3 (amended): when the upstream response stream errors mid-stream,
the proxy terminates the client stream and persists nothing: the handler
performs exactly the client writes followed by `res.end()`, and no
`CaptureResponse` record is logged. -/
theorem c3_error_terminates_without_persist (pe : List Char → Option StreamEvent)
    (jp : String → Option Json) (rid ts : String) (dur : Int)
    (chunks : List (List Char)) :
    handleStreamingResponseActions pe jp rid ts dur chunks
        StreamTermination.upstreamError
      = chunks.map ResponseAction.clientWrite ++ [ResponseAction.clientEnd] ∧
    (handleStreamingResponseActions pe jp rid ts dur chunks
        StreamTermination.upstreamError).countP isLogResponse = 0 := by
  refine ⟨rfl, ?_⟩
  show (chunks.map ResponseAction.clientWrite ++ [ResponseAction.clientEnd]).countP
    isLogResponse = 0
  rw [List.countP_append]
  have h1 : (chunks.map ResponseAction.clientWrite).countP isLogResponse = 0 := by
    rw [List.countP_eq_zero]
    intro a ha
    rcases List.mem_map.mp ha with ⟨c, _, rfl⟩
    simp [isLogResponse]
  rw [h1]
  rfl

/-- C7: an inbound request whose non-empty body fails to parse as JSON
still yields a persisted and broadcast capture record with
`model = "unknown"` and empty `messages`, and the exchange proceeds: the
upstream connection is opened and the raw body forwarded. -/
theorem c7_unparseable_body (bodyParse : List Char → Option Json)
    (rid ts method path : String) (rawBody : List Char)
    (h1 : rawBody ≠ []) (h2 : bodyParse rawBody = none) :
    handleProxyRequestActions bodyParse rid ts method path rawBody
      = [ProxyAction.logRequest (buildCapturedRequest rid ts (Json.obj [])),
         ProxyAction.broadcastRequest (buildCapturedRequest rid ts (Json.obj [])),
         ProxyAction.openUpstream "api.anthropic.com" 443 path method,
         ProxyAction.writeUpstreamBody rawBody] ∧
    (buildCapturedRequest rid ts (Json.obj [])).model = Json.str "unknown" ∧
    (buildCapturedRequest rid ts (Json.obj [])).messages = Json.arr [] := by
  refine ⟨?_, rfl, rfl⟩
  simp only [handleProxyRequestActions, if_pos h1, h2, Option.getD_none]
  rfl

/-- Witness for C7 at a concrete unparseable body. -/
theorem c7_unparseable_body_witness :
    handleProxyRequestActions (fun _ => none) "r1" "t1" "POST" "/v1/messages"
        "x".data
      = [ProxyAction.logRequest (buildCapturedRequest "r1" "t1" (Json.obj [])),
         ProxyAction.broadcastRequest (buildCapturedRequest "r1" "t1" (Json.obj [])),
         ProxyAction.openUpstream "api.anthropic.com" 443 "/v1/messages" "POST",
         ProxyAction.writeUpstreamBody "x".data] ∧
    (buildCapturedRequest "r1" "t1" (Json.obj [])).model = Json.str "unknown" ∧
    (buildCapturedRequest "r1" "t1" (Json.obj [])).messages = Json.arr [] :=
  c7_unparseable_body (fun _ => none) "r1" "t1" "POST" "/v1/messages" "x".data
    (by simp) rfl

/-- C10: `extractSystemPrompt` is total over the three runtime shapes of
`request.system`: absent yields `""`, a string is returned verbatim, and
an array yields the `"\n\n"`-join of the `text` fields of exactly the
blocks whose `type` is `"text"`, in order. -/
theorem c10_extract_system_prompt_total :
    extractSystemPrompt none = "" ∧
    (∀ s : String, extractSystemPrompt (some (Sum.inl s)) = s) ∧
    (∀ blocks : List RuntimeSystemBlock,
      extractSystemPrompt (some (Sum.inr blocks)) =
        String.intercalate "\n\n"
          ((blocks.filter (fun b => b.type = "text")).map (fun b => b.text))) := by
  refine ⟨rfl, ?_, fun _ => rfl⟩
  intro s
  by_cases h : s = ""
  · rw [h]
    rfl
  · simp only [extractSystemPrompt, if_neg h]

theorem fold_insertResponse (entries : List LogEntry) :
    ∀ (m0 : List (String × CapturedResponse)),
      entries.foldl
        (fun m e =>
          match e.data with
          | LogData.response p => insertResponse m p
          | _ => m) m0
        = ((responsesOf entries).reverse.map (fun p => (p.request_id, p))) ++ m0 := by
  induction entries with
  | nil =>
      intro m0
      simp [responsesOf]
  | cons e es ih =>
      intro m0
      rcases e with ⟨ts, d⟩
      cases d with
      | request r =>
          simp only [List.foldl_cons]
          rw [ih]
          simp [responsesOf, List.filterMap_cons]
      | response p =>
          simp only [List.foldl_cons]
          rw [ih]
          simp [responsesOf, List.filterMap_cons, insertResponse, List.reverse_cons,
            List.map_append, List.append_assoc]

theorem getLast?_cons_or {α : Type} (a : α) (l : List α) :
    (a :: l).getLast? = (l.getLast?).or (some a) := by
  cases l with
  | nil => rfl
  | cons b bs =>
      rw [List.getLast?_cons_cons]
      have hne : (b :: bs : List α) ≠ [] := by simp
      have hsome : (b :: bs : List α).getLast?.isSome := by
        rw [List.getLast?_isSome]
        exact hne
      rcases Option.isSome_iff_exists.mp hsome with ⟨z, hz⟩
      rw [hz]
      rfl

theorem find_reverse_responses (rs : List CapturedResponse) (k : String) :
    responseMapGet (rs.reverse.map (fun p => (p.request_id, p))) k =
      (rs.filter (fun p => p.request_id = k)).getLast? := by
  induction rs with
  | nil => rfl
  | cons p ps ih =>
      simp only [List.reverse_cons, List.map_append, List.filter_cons, List.map_cons,
        List.map_nil]
      unfold responseMapGet at ih ⊢
      rw [List.find?_append]
      by_cases hp : p.request_id = k
      · have hfind : List.find? (fun q => decide (q.1 = k))
            ([(p.request_id, p)] : List (String × CapturedResponse))
            = some (p.request_id, p) := by
          simp [List.find?, hp]
        rw [hfind]
        rw [if_pos (by simp [hp])]
        rw [getLast?_cons_or]
        cases hX : List.find? (fun q => decide (q.1 = k))
            (ps.reverse.map (fun p => (p.request_id, p))) with
        | none =>
            rw [hX] at ih
            simp only [Option.map_none'] at ih
            simp [← ih]
        | some q =>
            rw [hX] at ih
            simp only [Option.map_some'] at ih
            simp [← ih]
      · have hfind : List.find? (fun q => decide (q.1 = k))
            ([(p.request_id, p)] : List (String × CapturedResponse))
            = none := by
          simp [List.find?, hp]
        rw [hfind]
        rw [if_neg (by simp [hp])]
        rw [Option.or_none]
        exact ih

/-- C6: `getRequestResponsePairs` returns one pair per request entry, in
log order; each request is paired with the response whose `request_id`
equals the request's `id` (null when none exists), and when several
responses share a `request_id` the last one in log order wins. -/
theorem c6_pairs_last_response_wins (entries : List LogEntry) :
    getRequestResponsePairs entries =
      (requestsOf entries).map (fun r => (r, lastResponseFor entries r.id)) := by
  simp only [getRequestResponsePairs]
  rw [fold_insertResponse entries []]
  rw [List.append_nil]
  congr 1
  funext r
  rw [find_reverse_responses]
  rfl

theorem appendEntries_some (ser : LogEntry → List Char) :
    ∀ (es : List LogEntry) (pre : List Char),
      appendEntries ser (some pre) es =
        some (pre ++ (es.map (fun e => ser e ++ ['\n'])).flatten) := by
  intro es
  induction es with
  | nil =>
      intro pre
      simp [appendEntries]
  | cons e es ih =>
      intro pre
      show appendEntries ser (writeLine ser (some pre) e) es = _
      rw [show writeLine ser (some pre) e = some ((pre ++ ser e) ++ ['\n']) from rfl]
      rw [ih]
      simp [List.append_assoc]

theorem dropTrailingWs_append (u v : List Char) :
    dropTrailingWs (u ++ v) =
      if dropTrailingWs v = [] then dropTrailingWs u else u ++ dropTrailingWs v := by
  unfold dropTrailingWs
  rw [List.reverse_append, List.dropWhile_append]
  by_cases h : v.reverse.dropWhile isJsWhitespace = []
  · rw [if_pos (by simp [h] : (v.reverse.dropWhile isJsWhitespace).isEmpty = true)]
    rw [if_pos (by simp [h])]
  · rw [if_neg (by simp [h])]
    rw [if_neg (by simp [h])]
    rw [List.reverse_append, List.reverse_reverse]

theorem dropTrailingWs_of_getLast_not_ws (l : List Char) (c : Char)
    (hl : l.getLast? = some c) (hc : isJsWhitespace c = false) :
    dropTrailingWs l = l := by
  unfold dropTrailingWs
  have hh : l.reverse.head? = some c := by rw [List.head?_reverse]; exact hl
  cases hrev : l.reverse with
  | nil => rw [hrev] at hh; exact absurd hh (by simp)
  | cons x xs =>
      have hx : x = c := by
        rw [hrev] at hh
        simpa using hh
      have hdw : List.dropWhile isJsWhitespace (x :: xs) = x :: xs := by
        rw [List.dropWhile_cons, hx, hc]
        simp
      rw [hdw, ← hrev, List.reverse_reverse]

theorem splitNL_cons_newline {p : List Char} (hp : '\n' ∉ p) (rest : List Char) :
    splitNL (p ++ '\n' :: rest) = p :: splitNL rest := by
  rw [splitNL_append, splitNL_no_newline hp]
  rw [show splitNL ('\n' :: rest) = [] :: splitNL rest from by simp [splitNL]]
  simp [getLastD_one]

theorem splitNL_flatten (ser : LogEntry → List Char) :
    ∀ (entries : List LogEntry) (t : List Char),
      (∀ e ∈ entries, '\n' ∉ ser e) → '\n' ∉ t →
      splitNL ((entries.map (fun e => ser e ++ ['\n'])).flatten ++ t) =
        entries.map ser ++ [t] := by
  intro entries
  induction entries with
  | nil =>
      intro t _ ht
      simp [splitNL_no_newline ht]
  | cons e es ih =>
      intro t hnl ht
      have he : '\n' ∉ ser e := hnl e (by simp)
      have hes : ∀ x ∈ es, '\n' ∉ ser x := fun x hx => hnl x (by simp [hx])
      simp only [List.map_cons, List.flatten_cons, List.append_assoc]
      rw [show (['\n'] ++ ((es.map (fun x => ser x ++ ['\n'])).flatten ++ t) : List Char)
          = '\n' :: ((es.map (fun x => ser x ++ ['\n'])).flatten ++ t) from rfl]
      rw [splitNL_cons_newline he]
      rw [ih t hes ht]
      rfl

theorem filterMap_parse_map_ser (parseLine : List Char → Option LogEntry)
    (ser : LogEntry → List Char) :
    ∀ (es : List LogEntry), (∀ e ∈ es, parseLine (ser e) = some e) →
      (es.map ser).filterMap parseLine = es := by
  intro es
  induction es with
  | nil => intro _; rfl
  | cons e es ih =>
      intro h
      simp only [List.map_cons, List.filterMap_cons, h e (by simp)]
      rw [ih (fun x hx => h x (by simp [hx]))]

theorem filter_ne_nil_map_ser (ser : LogEntry → List Char) (es : List LogEntry)
    (h : ∀ e ∈ es, ser e ≠ []) :
    (es.map ser).filter (fun l => l ≠ []) = es.map ser := by
  apply List.filter_eq_self.mpr
  intro a ha
  rcases List.mem_map.mp ha with ⟨e, he, rfl⟩
  simp [h e he]

theorem readAll_appendEntries (ser : LogEntry → List Char)
    (parseLine : List Char → Option LogEntry) (entries : List LogEntry)
    (extra : List Char)
    (hne : ∀ e ∈ entries, ser e ≠ [])
    (hnl : ∀ e ∈ entries, '\n' ∉ ser e)
    (hhead : ∀ e ∈ entries, ∀ c, (ser e).head? = some c → isJsWhitespace c = false)
    (hlast : ∀ e ∈ entries, ∀ c, (ser e).getLast? = some c → isJsWhitespace c = false)
    (hrt : ∀ e ∈ entries, parseLine (ser e) = some e)
    (hexnl : '\n' ∉ extra)
    (hexparse : dropTrailingWs extra ≠ [] → parseLine (dropTrailingWs extra) = none) :
    readAll parseLine ((appendEntries ser none entries).map (fun c => c ++ extra))
      = entries := by
  cases hentries : entries with
  | nil => rfl
  | cons e1 es =>
  subst hentries
  have h0 : appendEntries ser none (e1 :: es)
      = some (((e1 :: es).map (fun e => ser e ++ ['\n'])).flatten) := by
    show appendEntries ser (writeLine ser none e1) es = _
    rw [show writeLine ser none e1 = some (([] ++ ser e1) ++ ['\n']) from rfl]
    rw [appendEntries_some]
    simp [List.append_assoc]
  rw [h0]
  simp only [Option.map_some']
  show (((splitNL (trimChars
      (((e1 :: es).map (fun e => ser e ++ ['\n'])).flatten ++ extra))).filter
        (fun l => l ≠ [])).filterMap parseLine) = e1 :: es
  obtain ⟨c, cs, hser⟩ : ∃ c cs, ser e1 = c :: cs := by
    cases hs : ser e1 with
    | nil => exact absurd hs (hne e1 (by simp))
    | cons c cs => exact ⟨c, cs, rfl⟩
  have hcws : isJsWhitespace c = false :=
    hhead e1 (by simp) c (by rw [hser]; rfl)
  have hfront : (((e1 :: es).map (fun e => ser e ++ ['\n'])).flatten ++ extra).dropWhile
      isJsWhitespace = ((e1 :: es).map (fun e => ser e ++ ['\n'])).flatten ++ extra := by
    simp only [List.map_cons, List.flatten_cons, hser, List.cons_append,
      List.append_assoc]
    rw [List.dropWhile_cons, hcws]
    simp
  have htrim : trimChars (((e1 :: es).map (fun e => ser e ++ ['\n'])).flatten ++ extra)
      = dropTrailingWs (((e1 :: es).map (fun e => ser e ++ ['\n'])).flatten ++ extra) := by
    unfold trimChars
    rw [hfront]
  rw [htrim, dropTrailingWs_append]
  by_cases hx : dropTrailingWs extra = []
  · rw [if_pos hx]
    rcases List.eq_nil_or_concat (e1 :: es) with hnil | ⟨es', en, hcat⟩
    · exact absurd hnil (by simp)
    · rw [List.concat_eq_append] at hcat
      rw [hcat]
      have hback : dropTrailingWs
          (((es' ++ [en]).map (fun e => ser e ++ ['\n'])).flatten)
          = (es'.map (fun e => ser e ++ ['\n'])).flatten ++ ser en := by
        rw [List.map_append, List.flatten_append]
        rw [show (([en].map (fun e => ser e ++ ['\n'])).flatten : List Char)
            = ser en ++ ['\n'] from by simp]
        rw [show ((es'.map (fun e => ser e ++ ['\n'])).flatten ++ (ser en ++ ['\n'])
            : List Char)
            = ((es'.map (fun e => ser e ++ ['\n'])).flatten ++ ser en) ++ ['\n'] from by
          simp [List.append_assoc]]
        rw [dropTrailingWs_append]
        rw [if_pos (by rfl : dropTrailingWs ['\n'] = [])]
        have henne : ser en ≠ [] := hne en (by rw [hcat]; simp)
        obtain ⟨cl, hcl⟩ : ∃ cl, (ser en).getLast? = some cl := by
          rcases Option.isSome_iff_exists.mp
            ((List.getLast?_isSome).mpr henne) with ⟨z, hz⟩
          exact ⟨z, hz⟩
        have hdt : dropTrailingWs (ser en) = ser en :=
          dropTrailingWs_of_getLast_not_ws (ser en) cl hcl
            (hlast en (by rw [hcat]; simp) cl hcl)
        rw [dropTrailingWs_append, hdt, if_neg henne]
      rw [hback]
      have hsplit := splitNL_flatten ser es' (ser en)
        (fun x hx2 => hnl x (by rw [hcat]; simp [hx2]))
        (hnl en (by rw [hcat]; simp))
      rw [hsplit]
      rw [show (es'.map ser ++ [ser en] : List (List Char))
          = (es' ++ [en]).map ser from by simp]
      rw [filter_ne_nil_map_ser ser (es' ++ [en])
        (fun x hx2 => hne x (by rw [hcat]; exact hx2))]
      rw [filterMap_parse_map_ser parseLine ser (es' ++ [en])
        (fun x hx2 => hrt x (by rw [hcat]; exact hx2))]
  · rw [if_neg hx]
    have hexnl' : '\n' ∉ dropTrailingWs extra := by
      intro hmem
      apply hexnl
      unfold dropTrailingWs at hmem
      rw [List.mem_reverse] at hmem
      have := (List.dropWhile_sublist isJsWhitespace :
        (extra.reverse.dropWhile isJsWhitespace).Sublist extra.reverse).subset hmem
      rw [List.mem_reverse] at this
      exact this
    rw [splitNL_flatten ser (e1 :: es) (dropTrailingWs extra) hnl hexnl']
    rw [List.filter_append, filter_ne_nil_map_ser ser (e1 :: es) hne]
    rw [show (([dropTrailingWs extra] : List (List Char)).filter (fun l => l ≠ []))
        = [dropTrailingWs extra] from by simp [hx]]
    rw [List.filterMap_append, filterMap_parse_map_ser parseLine ser (e1 :: es) hrt]
    rw [show (([dropTrailingWs extra] : List (List Char)).filterMap parseLine)
        = [] from by simp [List.filterMap_cons, hexparse hx]]
    simp

/-- C5: appending entries `e1..en` via `logRequest`/`logResponse` (each
written as one JSON line) and then calling `readAll` returns exactly
`[e1, ..., en]` in file order, and a trailing partial line that fails to
parse is omitted without affecting the result.  `ser` and `parseLine`
model `JSON.stringify` and `JSON.parse` on log entries; the hypotheses
record the relevant facts about `JSON.stringify` output on the entries:
nonempty, newline-free (newlines are escaped inside JSON strings), first
and last characters non-whitespace (`{` and `}`), and parsing inverts
serialisation. -/
theorem c5_persist_then_read (ser : LogEntry → List Char)
    (parseLine : List Char → Option LogEntry) (entries : List LogEntry)
    (extra : List Char)
    (hne : ∀ e ∈ entries, ser e ≠ [])
    (hnl : ∀ e ∈ entries, '\n' ∉ ser e)
    (hhead : ∀ e ∈ entries, ∀ c, (ser e).head? = some c → isJsWhitespace c = false)
    (hlast : ∀ e ∈ entries, ∀ c, (ser e).getLast? = some c → isJsWhitespace c = false)
    (hrt : ∀ e ∈ entries, parseLine (ser e) = some e)
    (hexnl : '\n' ∉ extra)
    (hexparse : dropTrailingWs extra ≠ [] → parseLine (dropTrailingWs extra) = none) :
    readAll parseLine (appendEntries ser none entries) = entries ∧
    readAll parseLine ((appendEntries ser none entries).map (fun c => c ++ extra))
      = entries := by
  constructor
  · have h := readAll_appendEntries ser parseLine entries [] hne hnl hhead hlast hrt
      (by simp) (fun hcon => absurd rfl hcon)
    rw [show ((appendEntries ser none entries).map (fun c => c ++ [])
        : Option (List Char)) = appendEntries ser none entries from by
      cases appendEntries ser none entries <;> simp] at h
    exact h
  · exact readAll_appendEntries ser parseLine entries extra hne hnl hhead hlast hrt
      hexnl hexparse

/-- Witness for C5 at a one-entry log with a concrete serialiser and
parser and a concrete unparseable trailing fragment. -/
theorem c5_persist_then_read_witness :
    readAll
      (fun l => if l = "a".data then
        some ⟨"t", LogData.request ⟨"r1", "t", "m", 0, none, [], none, none, none⟩⟩
        else none)
      (appendEntries (fun _ => "a".data) none
        [⟨"t", LogData.request ⟨"r1", "t", "m", 0, none, [], none, none, none⟩⟩])
      = [⟨"t", LogData.request ⟨"r1", "t", "m", 0, none, [], none, none, none⟩⟩] ∧
    readAll
      (fun l => if l = "a".data then
        some ⟨"t", LogData.request ⟨"r1", "t", "m", 0, none, [], none, none, none⟩⟩
        else none)
      ((appendEntries (fun _ => "a".data) none
        [⟨"t", LogData.request ⟨"r1", "t", "m", 0, none, [], none, none, none⟩⟩]).map
        (fun c => c ++ "g".data))
      = [⟨"t", LogData.request ⟨"r1", "t", "m", 0, none, [], none, none, none⟩⟩] :=
  c5_persist_then_read (fun _ => "a".data)
    (fun l => if l = "a".data then
      some ⟨"t", LogData.request ⟨"r1", "t", "m", 0, none, [], none, none, none⟩⟩
      else none)
    [⟨"t", LogData.request ⟨"r1", "t", "m", 0, none, [], none, none, none⟩⟩]
    "g".data
    (by intro e he; show "a".data ≠ []; decide)
    (by intro e he; show '\n' ∉ "a".data; decide)
    (by
      intro e he c hc
      rw [show ("a".data).head? = some 'a' from rfl] at hc
      injection hc with h
      subst h
      decide)
    (by
      intro e he c hc
      rw [show ("a".data).getLast? = some 'a' from rfl] at hc
      injection hc with h
      subst h
      decide)
    (by
      intro e he
      rw [List.mem_singleton] at he
      subst he
      simp)
    (by decide)
    (fun _ => rfl)

theorem reachable_log_invariant (s : ProxyLogState) (h : ReachableLog s) :
    (∀ x : String, s.log.countP (fun e => isRequestWithId e x)
        = if x ∈ s.used then 1 else 0) ∧
    (∀ x ∈ s.pending, x ∈ s.used) ∧
    (∀ (i : Nat) (hi : i < s.log.length) (p : CapturedResponse),
      (s.log.get ⟨i, hi⟩).data = LogData.response p →
      (s.log.take i).countP (fun e => isRequestWithId e p.request_id) = 1) := by
  induction h with
  | init =>
      refine ⟨?_, ?_, ?_⟩
      · intro x; simp
      · intro x hx; simp at hx
      · intro i hi p hp; simp at hi
  | @startRequest t r ts hre hfresh ih =>
      obtain ⟨ih1, ih2, ih3⟩ := ih
      refine ⟨?_, ?_, ?_⟩
      · intro x
        dsimp only
        simp only [List.countP_append]
        by_cases hx : x = r.id
        · subst hx
          rw [ih1 r.id, if_neg hfresh]
          rw [show (([({ timestamp := ts, data := LogData.request r } : LogEntry)] :
              List LogEntry).countP (fun e => isRequestWithId e r.id)) = 1 from by
            simp [List.countP_cons, isRequestWithId]]
          rw [if_pos (by simp : r.id ∈ t.used ++ [r.id])]
        · rw [ih1 x]
          rw [show (([({ timestamp := ts, data := LogData.request r } : LogEntry)] :
              List LogEntry).countP (fun e => isRequestWithId e x)) = 0 from by
            simp only [List.countP_cons, List.countP_nil, isRequestWithId]
            simp
            exact fun hcon => hx hcon.symm]
          rw [Nat.add_zero]
          have hmem : (x ∈ t.used ++ [r.id]) ↔ x ∈ t.used := by
            simp [List.mem_append, hx]
          by_cases hu : x ∈ t.used
          · rw [if_pos hu, if_pos (hmem.mpr hu)]
          · rw [if_neg hu, if_neg (fun hc => hu (hmem.mp hc))]
      · intro x hx
        dsimp only at hx ⊢
        rcases List.mem_append.mp hx with h1 | h2
        · exact List.mem_append.mpr (Or.inl (ih2 x h1))
        · exact List.mem_append.mpr (Or.inr h2)
      · intro i hi p hp
        dsimp only at hi hp ⊢
        by_cases hlt : i < t.log.length
        · rw [List.take_append_of_le_length (le_of_lt hlt)]
          rw [List.get_eq_getElem] at hp
          rw [List.getElem_append_left hlt] at hp
          exact ih3 i hlt p (by rw [List.get_eq_getElem]; exact hp)
        · have hieq : i = t.log.length := by
            simp only [List.length_append, List.length_singleton] at hi
            omega
          subst hieq
          rw [List.get_eq_getElem] at hp
          rw [List.getElem_concat_length _ _ _ rfl] at hp
          have hcon : LogData.request r = LogData.response p := hp
          exact absurd hcon (by simp)
  | @finishResponse t p ts hre hpend ih =>
      obtain ⟨ih1, ih2, ih3⟩ := ih
      refine ⟨?_, ?_, ?_⟩
      · intro x
        dsimp only
        simp only [List.countP_append]
        rw [show (([({ timestamp := ts, data := LogData.response p } : LogEntry)] :
            List LogEntry).countP (fun e => isRequestWithId e x)) = 0 from by
          simp [List.countP_cons, isRequestWithId]]
        rw [Nat.add_zero, ih1 x]
      · intro x hx
        dsimp only at hx ⊢
        exact ih2 x (List.mem_of_mem_erase hx)
      · intro i hi p' hp'
        dsimp only at hi hp' ⊢
        by_cases hlt : i < t.log.length
        · rw [List.take_append_of_le_length (le_of_lt hlt)]
          rw [List.get_eq_getElem] at hp'
          rw [List.getElem_append_left hlt] at hp'
          exact ih3 i hlt p' (by rw [List.get_eq_getElem]; exact hp')
        · have hieq : i = t.log.length := by
            simp only [List.length_append, List.length_singleton] at hi
            omega
          subst hieq
          rw [List.get_eq_getElem] at hp'
          rw [List.getElem_concat_length _ _ _ rfl] at hp'
          have h2 : LogData.response p = LogData.response p' := hp'
          have hpp : p' = p := by
            injection h2 with h3
            exact h3.symm
          subst hpp
          rw [List.take_left]
          rw [ih1 p'.request_id, if_pos (ih2 p'.request_id hpend)]

/-- C1: in every reachable state of the server's capture log, every log
entry of type `response` is preceded by exactly one earlier log entry of
type `request` whose `data.id` equals the response's `data.request_id`:
the prefix of the log strictly before the response entry contains exactly
one such request entry. -/
theorem c1_response_unique_earlier_request (s : ProxyLogState)
    (h : ReachableLog s) (i : Nat) (hi : i < s.log.length) (p : CapturedResponse)
    (hp : (s.log.get ⟨i, hi⟩).data = LogData.response p) :
    (s.log.take i).countP (fun e => isRequestWithId e p.request_id) = 1 :=
  (reachable_log_invariant s h).2.2 i hi p hp

/-- Witness for C1 at a two-entry reachable log (one request, one
response). -/
theorem c1_response_unique_earlier_request_witness :
    (([(⟨"t1", LogData.request ⟨"r1", "t0", "m", 0, none, [], none, none, none⟩⟩ : LogEntry),
       ⟨"t3", LogData.response ⟨"r1", "t2", [], none, ⟨0, 0, none, none⟩, "m", 0⟩⟩].take 1).countP
      (fun e => isRequestWithId e
        (⟨"r1", "t2", [], none, ⟨0, 0, none, none⟩, "m", 0⟩ : CapturedResponse).request_id))
      = 1 :=
  c1_response_unique_earlier_request
    { log := [⟨"t1", LogData.request ⟨"r1", "t0", "m", 0, none, [], none, none, none⟩⟩,
              ⟨"t3", LogData.response ⟨"r1", "t2", [], none, ⟨0, 0, none, none⟩, "m", 0⟩⟩]
      pending := []
      used := ["r1"] }
    (by
      have h1 := ReachableLog.startRequest
        (⟨"r1", "t0", "m", 0, none, [], none, none, none⟩ : CapturedRequest) "t1"
        ReachableLog.init (by simp)
      have h2 := ReachableLog.finishResponse
        (⟨"r1", "t2", [], none, ⟨0, 0, none, none⟩, "m", 0⟩ : CapturedResponse) "t3"
        h1 (by simp)
      exact h2)
    1 (by decide)
    ⟨"r1", "t2", [], none, ⟨0, 0, none, none⟩, "m", 0⟩ rfl

end ClaudeCodeReverse
